import Mathlib

/-!
Shallow embedding of the darkview dual-camera fusion pipeline.

Images are rectangular buffers of 8-bit intensities, modelled as lists of
rows of natural numbers.  Numpy slicing is modelled with `List.drop`,
`List.take` and `List.map`; uint8 wraparound is made explicit where the
source relies on it.  The OpenCV CLAHE transform itself (an external
library call) is an abstract parameter of the embedding; everything
around it — bounding-box selection, masked assignment, region
write-back — is modelled from the source
(`camera_thread_queue.py`, `fusion_worker.py`, `shared_state.py`).
-/

/-- A 2-D buffer: a list of rows. -/
abbrev Grid (α : Type) := List (List α)

/-- A single-channel (grayscale) image buffer. -/
abbrev Img := Grid Nat

/-- A 3-D buffer: rows of cells, each cell a vector of channel values. -/
abbrev Img3 := Grid (List Nat)

/-- Element of a list at an index, with an explicit default. -/
def nth {α : Type} (d : α) : List α → Nat → α
  | [], _ => d
  | a :: _, 0 => a
  | _ :: l, n + 1 => nth d l n

/-- Pixel access on a grayscale image (0 outside the buffer). -/
def px (g : Img) (i j : Nat) : Nat := nth 0 (nth [] g i) j

/-- The buffer is a rectangular array of `h` rows of width `w`. -/
def Rect {α : Type} (h w : Nat) (g : Grid α) : Prop :=
  g.length = h ∧ ∀ r ∈ g, r.length = w

/-- FusionWorker.crop_and_shift (fusion_worker.py lines 58-76).
Slice `img1[:, x:]` drops the leftmost `x` columns of cam1;
`img2[:, :-x or None]` keeps all but the last `x` columns of cam2 (the
`or None` makes `x = 0` a full slice, so it is `take (length - x)` for
every `x ≥ 0`).  A positive `y` drops `y` top rows of cam1 and `y`
bottom rows of cam2; a negative `y` (the source takes `y = abs(y)`)
drops `|y|` bottom rows of cam1 and `|y|` top rows of cam2; `y = 0`
leaves rows untouched. -/
def crop_and_shift {α : Type} (x : Nat) (y : Int) (img1 img2 : Grid α) :
    Grid α × Grid α :=
  let img1x := img1.map (fun r => r.drop x)
  let img2x := img2.map (fun r => r.take (r.length - x))
  if 0 < y then
    (img1x.drop y.toNat, img2x.take (img2x.length - y.toNat))
  else if y < 0 then
    (img1x.take (img1x.length - y.natAbs), img2x.drop y.natAbs)
  else
    (img1x, img2x)

/-- One row of the numpy idiom `out = a.copy(); out[m > 0] = b[m > 0]`:
replace entries of `a` by the corresponding entries of `b` wherever the
mask entry is nonzero (equal extents in every use by the source). -/
def maskedAssignRow {α : Type} : List α → List α → List Nat → List α
  | [], _, _ => []
  | a :: as, b :: bs, m :: ms =>
      (if 0 < m then b else a) :: maskedAssignRow as bs ms
  | as, _, _ => as

/-- The 2-D numpy idiom `out = a.copy(); out[m > 0] = b[m > 0]`. -/
def maskedAssign {α : Type} : Grid α → Grid α → Grid Nat → Grid α
  | [], _, _ => []
  | r :: rs, b :: bs, m :: ms => maskedAssignRow r b m :: maskedAssign rs bs ms
  | rs, _, _ => rs

/-- FusionWorker.fuse_images (fusion_worker.py lines 78-81):
`fused = img1.copy(); fused[mask1 > 0] = img2[mask1 > 0]`. -/
def fuse_images (img1 img2 mask1 : Img) : Img :=
  maskedAssign img1 img2 mask1

/-- FusionWorker.pad_to_full_width (fusion_worker.py lines 91-100): a
canvas of width `full_w = w + 2 * x` filled with 128, with the input
written into columns `[x : x + w]`.  For a rectangular input this puts
`x` gray columns on each side of every row (the 3-channel branch of the
source is identical with the 128 fill broadcast over channels). -/
def pad_to_full_width (x : Nat) (img : Img) : Img :=
  img.map (fun r => List.replicate x 128 ++ r ++ List.replicate x 128)

/-- Model of cv2.inRange(image, lo, hi): 255 where `lo ≤ p ≤ hi`, else
0, with the input's shape. -/
def inRange (lo hi : Nat) (image : Img) : Img :=
  image.map (fun r => r.map (fun p => if lo ≤ p ∧ p ≤ hi then 255 else 0))

/-- CameraWorker.compute_mask (camera_thread_queue.py lines 62-63):
`cv2.inRange(image, self.saturation_threshold, 255)`. -/
def compute_mask (threshold : Nat) (image : Img) : Img :=
  inRange threshold 255 image

/-- uint8 subtraction with wraparound modulo 256 (numpy uint8 semantics). -/
def u8sub (a b : Nat) : Nat := (a % 256 + 256 - b % 256) % 256

/-- Model of np.ones_like: an array of ones with the input's shape. -/
def ones_like {α : Type} (g : Grid α) : Img :=
  g.map (fun r => r.map (fun _ => 1))

/-- Elementwise uint8 subtraction of two equal-shaped uint8 buffers. -/
def u8subImg (a b : Img) : Img :=
  List.zipWith (fun ra rb => List.zipWith u8sub ra rb) a b

/-- Column indices of the nonzero entries of one row, in order. -/
def rowNonzero : List Nat → List Nat
  | [] => []
  | p :: ps =>
      if 0 < p then 0 :: (rowNonzero ps).map (· + 1)
      else (rowNonzero ps).map (· + 1)

/-- Model of np.where(mask > 0): row-major coordinates of the nonzero
mask entries. -/
def nonzeroCoords : Img → List (Nat × Nat)
  | [] => []
  | r :: rs =>
      (rowNonzero r).map (fun j => (0, j))
        ++ (nonzeroCoords rs).map (fun p => (p.1 + 1, p.2))

/-- Minimum of a list of naturals (0 for the empty list). -/
def listMin : List Nat → Nat
  | [] => 0
  | a :: as => as.foldl min a

/-- Maximum of a list of naturals (0 for the empty list). -/
def listMax (l : List Nat) : Nat := l.foldl max 0

/-- Slice `g[y0:y1+1, x0:x1+1]`, the CLAHE region of interest. -/
def subImage {α : Type} (g : Grid α) (y0 y1 x0 x1 : Nat) : Grid α :=
  ((g.drop y0).take (y1 + 1 - y0)).map (fun r => (r.drop x0).take (x1 + 1 - x0))

/-- Write `patch` into `base` starting at column `x0`; writes beyond the
row end are discarded (the source's numpy assignment always has matching
extents).  The result keeps `base`'s length. -/
def overlayRow {α : Type} (base : List α) (x0 : Nat) (patch : List α) : List α :=
  base.take x0 ++ patch.take (base.length - x0) ++ base.drop (x0 + patch.length)

/-- Region write-back `base[y0:y0+ph, x0:x0+pw] = patch` (clipped to
`base`'s extent); models `output[y_min:y_max+1, x_min:x_max+1] = patch`. -/
def overlayAt {α : Type} (base : Grid α) (y0 x0 : Nat) (patch : Grid α) : Grid α :=
  base.take y0
    ++ List.zipWith (fun br pr => overlayRow br x0 pr) (base.drop y0) patch
    ++ base.drop (y0 + patch.length)

/-- The grayscale branch of apply_clahe_masked_region
(fusion_worker.py lines 163-188), with the CLAHE transform proper
(cv2.createCLAHE(...).apply, an OpenCV call) abstracted as `enhance`:
find the bounding box of the nonzero mask pixels (return the input
unchanged if there are none), enhance the sub-rectangle, keep enhanced
values only where the mask is nonzero, and write the patch back. -/
def applyClaheGray (enhance : Img → Img) (image mask : Img) : Img :=
  let coords := nonzeroCoords mask
  if coords.isEmpty then image
  else
    let x0 := listMin (coords.map Prod.snd)
    let x1 := listMax (coords.map Prod.snd)
    let y0 := listMin (coords.map Prod.fst)
    let y1 := listMax (coords.map Prod.fst)
    let roiImg := subImage image y0 y1 x0 x1
    let roiMask := subImage mask y0 y1 x0 x1
    overlayAt image y0 x0 (maskedAssign roiImg (enhance roiImg) roiMask)

/-- Channel count of a 3-D buffer: numpy's shape[2] for a rectangular
array. -/
def channels (d : Img3) : Nat := ((d.headD []).headD []).length

/-- An image buffer as dispatched on by apply_clahe_masked_region:
either a 2-D array or a 3-D array of channel vectors. -/
inductive Buf : Type where
  | g2 : Img → Buf
  | c3 : Img3 → Buf
deriving DecidableEq

/-- apply_clahe_masked_region (fusion_worker.py lines 163-203).  The
external cv2 transforms are parameters of the embedding: `enhance` is
CLAHE on a 2-D array, `enhanceC` is CLAHE on an (h, w, 1) array, and
`colorBranch` is the whole BGR→LAB→split→CLAHE→merge→BGR round trip on
the region of interest (source lines 191-197).  With a mask that has no
nonzero pixel the input is returned unchanged before any shape dispatch
(lines 170-172); a region whose channel count is neither 1 nor 3 raises
`ValueError("Unsupported image format for CLAHE")` (line 203), modelled
as `Except.error`. -/
def apply_clahe_masked_region (enhance : Img → Img) (enhanceC : Img3 → Img3)
    (colorBranch : Img3 → Img → Img3) (buf : Buf) (mask : Img) :
    Except String Buf :=
  let coords := nonzeroCoords mask
  if coords.isEmpty then .ok buf
  else
    let x0 := listMin (coords.map Prod.snd)
    let x1 := listMax (coords.map Prod.snd)
    let y0 := listMin (coords.map Prod.fst)
    let y1 := listMax (coords.map Prod.fst)
    match buf with
    | .g2 image =>
        let roiImg := subImage image y0 y1 x0 x1
        let roiMask := subImage mask y0 y1 x0 x1
        .ok (.g2 (overlayAt image y0 x0
          (maskedAssign roiImg (enhance roiImg) roiMask)))
    | .c3 data =>
        let roiImg := subImage data y0 y1 x0 x1
        let roiMask := subImage mask y0 y1 x0 x1
        if channels roiImg = 1 then
          .ok (.c3 (overlayAt data y0 x0
            (maskedAssign roiImg (enhanceC roiImg) roiMask)))
        else if channels roiImg = 3 then
          .ok (.c3 (overlayAt data y0 x0 (colorBranch roiImg roiMask)))
        else .error "Unsupported image format for CLAHE"

/-- The fields of a Frame Record used by the fusion worker (timestamps
are exact rationals in the embedding). -/
structure FrameRec where
  timestamp : ℚ
  image : Img
  mask : Img

/-- One pass of FusionWorker.run's fusion body (fusion_worker.py lines
125-143) producing the padded fused grayscale frame: crop-and-shift both
images and both masks, CLAHE-enhance cam1 against
`np.ones_like(img1) - mask1` (uint8 arithmetic, line 137) and cam2
against `mask1` (line 138; `use_clahe` is True in the source, and
`enhance1`, `enhance2` stand for the two configured CLAHE transforms),
fuse, and pad.  Contour drawing affects only the overlay output, not the
fused frame. -/
def fusionPipelineFused (enhance1 enhance2 : Img → Img) (x : Nat) (y : Int)
    (image1 image2 mask1in mask2in : Img) : Img :=
  let imgs := crop_and_shift x y image1 image2
  let masks := crop_and_shift x y mask1in mask2in
  let img1 := applyClaheGray enhance1 imgs.1 (u8subImg (ones_like imgs.1) masks.1)
  let img2 := applyClaheGray enhance2 imgs.2 masks.1
  pad_to_full_width x (fuse_images img1 img2 masks.1)

/-- One iteration of FusionWorker.run after both frames are dequeued
(fusion_worker.py lines 118-157): `none` when the timestamp-skew gate
drops the pair (nothing is published that cycle), otherwise the padded
fused frame that gets published. -/
def fusionCycle (enhance1 enhance2 : Img → Img) (x : Nat) (y : Int)
    (maxskew : ℚ) (f1 f2 : FrameRec) : Option Img :=
  if |f1.timestamp - f2.timestamp| > maxskew then none
  else some (fusionPipelineFused enhance1 enhance2 x y f1.image f2.image f1.mask f2.mask)

/-- State of a queue.Queue(maxsize=1) as created in shared_state.py
lines 63-67: empty, or holding one record. -/
inductive QState (α : Type) : Type where
  | empty : QState α
  | full : α → QState α

/-- Model of q.full() on a capacity-1 queue. -/
def QState.isFull {α : Type} : QState α → Bool
  | .empty => false
  | .full _ => true

/-- Model of q.get_nowait(): removes and returns the entry, or raises
queue.Empty (here: `none`). -/
def QState.getNowait {α : Type} : QState α → Option (α × QState α)
  | .empty => none
  | .full a => some (a, .empty)

/-- Model of q.put(a) on a capacity-1 queue: succeeds exactly when a
slot is free; `none` means the caller would block. -/
def QState.putNonblock {α : Type} : QState α → α → Option (QState α)
  | .empty, a => some (.full a)
  | .full _, _ => none

/-- The evict-then-insert publish idiom used by CameraWorker.run
(camera_thread_queue.py lines 101-107) and FusionWorker.run
(fusion_worker.py lines 152-157):
`if q.full(): try: q.get_nowait() except queue.Empty: pass` then
`q.put(record)`.  The result is `none` when the final put would block. -/
def publish {α : Type} (st : QState α) (a : α) : Option (QState α) :=
  let st1 := if st.isFull then
    (match st.getNowait with
     | some p => p.2
     | none => st)
  else st
  st1.putNonblock a

/-- Support-preserving relation between two masks: same shape, and
nonzero exactly at the same places. -/
def SupportIff (m m1 : Img) : Prop :=
  List.Forall₂ (List.Forall₂ (fun a b => (0 < a ↔ 0 < b))) m m1

instance rectDecidable {α : Type} (h w : Nat) (g : Grid α) : Decidable (Rect h w g) :=
  decidable_of_iff (g.length = h ∧ ∀ r ∈ g, r.length = w) Iff.rfl

theorem nth_nil {α : Type} (d : α) (n : Nat) : nth d [] n = d := rfl

theorem nth_cons_zero {α : Type} (d a : α) (l : List α) : nth d (a :: l) 0 = a := rfl

theorem nth_cons_succ {α : Type} (d a : α) (l : List α) (n : Nat) :
    nth d (a :: l) (n + 1) = nth d l n := rfl

theorem nth_ge {α : Type} (d : α) (l : List α) (n : Nat) (h : l.length ≤ n) :
    nth d l n = d := by
  induction l generalizing n with
  | nil => exact nth_nil d n
  | cons a as ih =>
    cases n with
    | zero => simp at h
    | succ k => exact (nth_cons_succ d a as k).trans (ih k (by simpa using h))

theorem nth_mem {α : Type} (d : α) (l : List α) (n : Nat) (h : n < l.length) :
    nth d l n ∈ l := by
  induction l generalizing n with
  | nil => simp at h
  | cons a as ih =>
    cases n with
    | zero => exact List.mem_cons_self a as
    | succ k => exact List.mem_cons_of_mem a (ih k (by simpa using h))

theorem nth_drop {α : Type} (d : α) (l : List α) (m n : Nat) :
    nth d (l.drop m) n = nth d l (m + n) := by
  induction m generalizing l with
  | zero => simp
  | succ k ih =>
    cases l with
    | nil => simp [nth_nil]
    | cons a as =>
      rw [List.drop_succ_cons, ih as, Nat.succ_add, nth_cons_succ]

theorem nth_take_lt {α : Type} (d : α) (l : List α) (m n : Nat) (h : n < m) :
    nth d (l.take m) n = nth d l n := by
  induction l generalizing m n with
  | nil => simp
  | cons a as ih =>
    cases m with
    | zero => omega
    | succ k =>
      cases n with
      | zero => rfl
      | succ j =>
        rw [List.take_succ_cons, nth_cons_succ, nth_cons_succ]
        exact ih k j (by omega)

theorem nth_map_lt {α β : Type} (d : α) (e : β) (f : α → β) (l : List α) (n : Nat)
    (h : n < l.length) : nth e (l.map f) n = f (nth d l n) := by
  induction l generalizing n with
  | nil => simp at h
  | cons a as ih =>
    cases n with
    | zero => rfl
    | succ k =>
      rw [List.map_cons, nth_cons_succ, nth_cons_succ]
      exact ih k (by simpa using h)

theorem nth_map_default {α β : Type} (f : List α → List β) (hf : f [] = [])
    (g : Grid α) (i : Nat) : nth [] (g.map f) i = f (nth [] g i) := by
  induction g generalizing i with
  | nil => simp [nth_nil, hf]
  | cons r rs ih =>
    cases i with
    | zero => rfl
    | succ k =>
      rw [List.map_cons, nth_cons_succ, nth_cons_succ]
      exact ih k

theorem nth_append_lt {α : Type} (d : α) (l1 l2 : List α) (n : Nat)
    (h : n < l1.length) : nth d (l1 ++ l2) n = nth d l1 n := by
  induction l1 generalizing n with
  | nil => simp at h
  | cons a as ih =>
    cases n with
    | zero => rfl
    | succ k =>
      rw [List.cons_append, nth_cons_succ, nth_cons_succ]
      exact ih k (by simpa using h)

theorem nth_append_ge {α : Type} (d : α) (l1 l2 : List α) (n : Nat)
    (h : l1.length ≤ n) : nth d (l1 ++ l2) n = nth d l2 (n - l1.length) := by
  induction l1 generalizing n with
  | nil => simp
  | cons a as ih =>
    cases n with
    | zero => simp at h
    | succ k =>
      rw [List.cons_append, nth_cons_succ, ih k (by simpa using h)]
      simp

theorem nth_replicate_lt {α : Type} (d a : α) (m n : Nat) (h : n < m) :
    nth d (List.replicate m a) n = a := by
  induction m generalizing n with
  | zero => omega
  | succ k ih =>
    cases n with
    | zero => rfl
    | succ j =>
      rw [List.replicate_succ, nth_cons_succ]
      exact ih j (by omega)

theorem rect_row_length {α : Type} {h w : Nat} {g : Grid α} (hr : Rect h w g)
    {i : Nat} (hi : i < h) : (nth [] g i).length = w :=
  hr.2 _ (nth_mem [] g i (hr.1 ▸ hi))

theorem mem_zipWith {α β γ : Type} {f : α → β → γ} {l1 : List α} {l2 : List β}
    {c : γ} (hc : c ∈ List.zipWith f l1 l2) :
    ∃ a ∈ l1, ∃ b ∈ l2, c = f a b := by
  induction l1 generalizing l2 with
  | nil => simp at hc
  | cons a as ih =>
    cases l2 with
    | nil => simp at hc
    | cons b bs =>
      rw [List.zipWith_cons_cons] at hc
      rcases List.mem_cons.1 hc with rfl | hmem
      · exact ⟨a, List.mem_cons_self a as, b, List.mem_cons_self b bs, rfl⟩
      · obtain ⟨a1, ha1, b1, hb1, rfl⟩ := ih hmem
        exact ⟨a1, List.mem_cons_of_mem a ha1, b1, List.mem_cons_of_mem b hb1, rfl⟩

theorem overlayRow_length {α : Type} (b : List α) (x0 : Nat) (p : List α) :
    (overlayRow b x0 p).length = b.length := by
  simp only [overlayRow, List.length_append, List.length_take, List.length_drop]
  omega

theorem overlayAt_length {α : Type} (base : Grid α) (y0 x0 : Nat) (patch : Grid α) :
    (overlayAt base y0 x0 patch).length = base.length := by
  simp only [overlayAt, List.length_append, List.length_take, List.length_drop,
    List.length_zipWith]
  omega

theorem rect_overlayAt {α : Type} {h w : Nat} {base : Grid α} (hb : Rect h w base)
    (y0 x0 : Nat) (patch : Grid α) : Rect h w (overlayAt base y0 x0 patch) := by
  constructor
  · rw [overlayAt_length]; exact hb.1
  · intro r hr
    rcases List.mem_append.1 hr with hr1 | hr2
    · rcases List.mem_append.1 hr1 with hta | hz
      · exact hb.2 r (List.take_subset _ _ hta)
      · obtain ⟨br, hbr, pr, _, rfl⟩ := mem_zipWith hz
        rw [overlayRow_length]
        exact hb.2 br (List.drop_subset _ _ hbr)
    · exact hb.2 r (List.drop_subset _ _ hr2)

theorem maskedAssignRow_length {α : Type} (a b : List α) (m : List Nat) :
    (maskedAssignRow a b m).length = a.length := by
  induction a generalizing b m with
  | nil => rfl
  | cons a0 as ih =>
    cases b with
    | nil => rfl
    | cons b0 bs =>
      cases m with
      | nil => rfl
      | cons m0 ms => simp [maskedAssignRow, ih]

theorem maskedAssign_row_lengths {α : Type} (g b : Grid α) (m : Grid Nat) :
    ∀ row ∈ maskedAssign g b m, ∃ r ∈ g, row.length = r.length := by
  induction g generalizing b m with
  | nil => intro row hrow; simp [maskedAssign] at hrow
  | cons r0 rs ih =>
    intro row hrow
    cases b with
    | nil =>
      exact ⟨row, by simpa [maskedAssign] using hrow, rfl⟩
    | cons b0 bs =>
      cases m with
      | nil =>
        exact ⟨row, by simpa [maskedAssign] using hrow, rfl⟩
      | cons m0 ms =>
        rw [show maskedAssign (r0 :: rs) (b0 :: bs) (m0 :: ms) =
            maskedAssignRow r0 b0 m0 :: maskedAssign rs bs ms from rfl] at hrow
        rcases List.mem_cons.1 hrow with rfl | hmem
        · exact ⟨r0, List.mem_cons_self r0 rs, maskedAssignRow_length r0 b0 m0⟩
        · obtain ⟨r1, hr1, hlen⟩ := ih bs ms row hmem
          exact ⟨r1, List.mem_cons_of_mem r0 hr1, hlen⟩

theorem maskedAssign_length {α : Type} (g b : Grid α) (m : Grid Nat) :
    (maskedAssign g b m).length = g.length := by
  induction g generalizing b m with
  | nil => rfl
  | cons r0 rs ih =>
    cases b with
    | nil => rfl
    | cons b0 bs =>
      cases m with
      | nil => rfl
      | cons m0 ms => simp [maskedAssign, ih]

theorem rect_maskedAssign {α : Type} {h w : Nat} {g : Grid α} (hg : Rect h w g)
    (b : Grid α) (m : Grid Nat) : Rect h w (maskedAssign g b m) := by
  constructor
  · rw [maskedAssign_length]; exact hg.1
  · intro row hrow
    obtain ⟨r, hr, hlen⟩ := maskedAssign_row_lengths g b m row hrow
    rw [hlen]; exact hg.2 r hr

theorem rect_applyClaheGray {h w : Nat} {image : Img} (hi : Rect h w image)
    (e : Img → Img) (mask : Img) : Rect h w (applyClaheGray e image mask) := by
  unfold applyClaheGray
  by_cases hc : (nonzeroCoords mask).isEmpty
  · simpa [hc] using hi
  · simp only [hc, if_false]
    exact rect_overlayAt hi _ _ _

theorem rect_dropCols {α : Type} {h w : Nat} (x : Nat) {g : Grid α}
    (hg : Rect h w g) : Rect h (w - x) (g.map (fun r => r.drop x)) := by
  constructor
  · simpa using hg.1
  · intro r hr
    obtain ⟨s, hs, rfl⟩ := List.mem_map.1 hr
    simp [hg.2 s hs]

theorem rect_takeCols {α : Type} {h w : Nat} (x : Nat) {g : Grid α}
    (hg : Rect h w g) : Rect h (w - x) (g.map (fun r => r.take (r.length - x))) := by
  constructor
  · simpa using hg.1
  · intro r hr
    obtain ⟨s, hs, rfl⟩ := List.mem_map.1 hr
    simp [hg.2 s hs]

theorem rect_crop_fst {α : Type} {h w : Nat} (x : Nat) (y : Int)
    {img1 : Grid α} (img2 : Grid α) (h1 : Rect h w img1) :
    Rect (h - y.natAbs) (w - x) (crop_and_shift x y img1 img2).1 := by
  have hx := rect_dropCols x h1
  unfold crop_and_shift
  by_cases hy1 : 0 < y
  · simp only [hy1, if_true]
    refine ⟨?_, ?_⟩
    · simp only [List.length_drop, List.length_map, h1.1]
      omega
    · intro r hr; exact hx.2 r (List.drop_subset _ _ hr)
  · by_cases hy2 : y < 0
    · simp only [hy1, hy2, if_false, if_true]
      refine ⟨?_, ?_⟩
      · simp only [List.length_take, List.length_map, h1.1]
        omega
      · intro r hr; exact hx.2 r (List.take_subset _ _ hr)
    · have hy0 : y = 0 := by omega
      subst hy0
      simpa using hx

theorem rect_crop_snd {α : Type} {h w : Nat} (x : Nat) (y : Int)
    (img1 : Grid α) {img2 : Grid α} (h2 : Rect h w img2) :
    Rect (h - y.natAbs) (w - x) (crop_and_shift x y img1 img2).2 := by
  have hx := rect_takeCols x h2
  unfold crop_and_shift
  by_cases hy1 : 0 < y
  · simp only [hy1, if_true]
    refine ⟨?_, ?_⟩
    · simp only [List.length_take, List.length_map, h2.1]
      omega
    · intro r hr; exact hx.2 r (List.take_subset _ _ hr)
  · by_cases hy2 : y < 0
    · simp only [hy1, hy2, if_false, if_true]
      refine ⟨?_, ?_⟩
      · simp only [List.length_drop, List.length_map, h2.1]
      · intro r hr; exact hx.2 r (List.drop_subset _ _ hr)
    · have hy0 : y = 0 := by omega
      subst hy0
      simpa using hx

theorem rect_pad {h w : Nat} (x : Nat) {img : Img} (hi : Rect h w img) :
    Rect h (w + 2 * x) (pad_to_full_width x img) := by
  constructor
  · simpa [pad_to_full_width] using hi.1
  · intro r hr
    obtain ⟨s, hs, rfl⟩ := List.mem_map.1 hr
    simp [hi.2 s hs]
    omega

theorem maskedAssignRow_nth {α : Type} (d : α) (a b : List α) (m : List Nat)
    (j : Nat) (hab : a.length = b.length) (ham : a.length = m.length) :
    nth d (maskedAssignRow a b m) j =
      if 0 < nth 0 m j then nth d b j else nth d a j := by
  induction a generalizing b m j with
  | nil =>
    have hb : b = [] := List.eq_nil_of_length_eq_zero hab.symm
    have hm : m = [] := List.eq_nil_of_length_eq_zero ham.symm
    subst hb; subst hm
    simp [maskedAssignRow, nth_nil]
  | cons a0 as ih =>
    cases b with
    | nil => simp at hab
    | cons b0 bs =>
      cases m with
      | nil => simp at ham
      | cons m0 ms =>
        cases j with
        | zero =>
          show nth d ((if 0 < m0 then b0 else a0) :: maskedAssignRow as bs ms) 0 = _
          by_cases hm0 : 0 < m0 <;> simp [hm0, nth_cons_zero]
        | succ k =>
          show nth d ((if 0 < m0 then b0 else a0) :: maskedAssignRow as bs ms) (k + 1) = _
          rw [nth_cons_succ, nth_cons_succ, nth_cons_succ, nth_cons_succ]
          exact ih bs ms k (by simpa using hab) (by simpa using ham)

theorem maskedAssign_nth {α : Type} (g b : Grid α) (m : Grid Nat) (i : Nat)
    (hgb : g.length = b.length) (hgm : g.length = m.length) :
    nth [] (maskedAssign g b m) i =
      maskedAssignRow (nth [] g i) (nth [] b i) (nth [] m i) := by
  induction g generalizing b m i with
  | nil =>
    have hb : b = [] := List.eq_nil_of_length_eq_zero hgb.symm
    have hm : m = [] := List.eq_nil_of_length_eq_zero hgm.symm
    subst hb; subst hm
    simp [maskedAssign, nth_nil, maskedAssignRow]
  | cons r0 rs ih =>
    cases b with
    | nil => simp at hgb
    | cons b0 bs =>
      cases m with
      | nil => simp at hgm
      | cons m0 ms =>
        cases i with
        | zero => rfl
        | succ k =>
          show nth [] (maskedAssignRow r0 b0 m0 :: maskedAssign rs bs ms) (k + 1) = _
          rw [nth_cons_succ, nth_cons_succ, nth_cons_succ, nth_cons_succ]
          exact ih bs ms k (by simpa using hgb) (by simpa using hgm)

theorem px_maskedAssign {g b : Grid Nat} {m : Grid Nat} {h w : Nat}
    (hg : Rect h w g) (hb : Rect h w b) (hm : Rect h w m) (i j : Nat)
    (hi : i < h) :
    px (maskedAssign g b m) i j =
      if 0 < px m i j then px b i j else px g i j := by
  unfold px
  rw [maskedAssign_nth g b m i (hg.1.trans hb.1.symm) (hg.1.trans hm.1.symm)]
  exact maskedAssignRow_nth 0 _ _ _ j
    ((rect_row_length hg hi).trans (rect_row_length hb hi).symm)
    ((rect_row_length hg hi).trans (rect_row_length hm hi).symm)

theorem px_dropCols (g : Img) (x i j : Nat) :
    px (g.map (fun r => r.drop x)) i j = px g i (x + j) := by
  unfold px
  rw [nth_map_default (fun r => r.drop x) (by simp), nth_drop]

theorem px_takeCols (g : Img) (x i j : Nat)
    (hj : j < (nth [] g i).length - x) :
    px (g.map (fun r => r.take (r.length - x))) i j = px g i j := by
  unfold px
  rw [nth_map_default (fun r => r.take (r.length - x)) (by simp)]
  exact nth_take_lt 0 _ _ j hj

theorem px_dropRows (g : Img) (n i j : Nat) :
    px (g.drop n) i j = px g (n + i) j := by
  unfold px
  rw [nth_drop]

theorem px_takeRows (g : Img) (n i j : Nat) (hi : i < n) :
    px (g.take n) i j = px g i j := by
  unfold px
  rw [nth_take_lt [] g n i hi]

theorem drop_replicate_append {α : Type} (n : Nat) (a : α) (l : List α) :
    (List.replicate n a ++ l).drop n = l := by
  induction n with
  | zero => simp
  | succ k ih => simp [List.replicate_succ, ih]

theorem take_append_self {α : Type} (l1 l2 : List α) :
    (l1 ++ l2).take l1.length = l1 := by
  induction l1 with
  | nil => simp
  | cons a as ih => simp [ih]

/-- C8: for every state of a capacity-1 bounded handoff queue, including
the full state, the evict-then-insert publish step used by the capture
and fusion workers (evict the current entry when full, then put) does
not block — `publish` returns `some` rather than the would-block `none`
— and terminates with the queue holding exactly the newly published
record, which a subsequent get retrieves as the only entry, leaving the
queue empty. -/
theorem publish_overwrite_spec {α : Type} (st : QState α) (a : α) :
    publish st a = some (QState.full a)
    ∧ QState.getNowait (QState.full a) = some (a, QState.empty) := by
  refine ⟨?_, rfl⟩
  cases st <;> rfl

/-- C4: a fusion cycle publishes a fused record exactly when the
dequeued pair satisfies `|ts1 - ts2| ≤ max_skew`; a pair whose skew
exceeds the bound yields nothing that cycle.  With max_skew 0.15 the
pair (10.000, 10.200) is rejected and the pair (10.000, 10.100) is
accepted. -/
theorem skew_gate_spec (e1 e2 : Img → Img) (x : Nat) (y : Int) (maxskew : ℚ)
    (f1 f2 : FrameRec) :
    ((fusionCycle e1 e2 x y maxskew f1 f2).isSome = true ↔
      |f1.timestamp - f2.timestamp| ≤ maxskew)
    ∧ fusionCycle id id 0 0 (3/20) ⟨10, [], []⟩ ⟨51/5, [], []⟩ = none
    ∧ (fusionCycle id id 0 0 (3/20) ⟨10, [], []⟩ ⟨101/10, [], []⟩).isSome = true := by
  refine ⟨?_, ?_, ?_⟩
  · unfold fusionCycle
    by_cases hc : |f1.timestamp - f2.timestamp| > maxskew
    · rw [if_pos hc]
      exact iff_of_false (by simp) (not_le.mpr hc)
    · rw [if_neg hc]
      exact iff_of_true (by simp) (not_lt.mp hc)
  · have habs : |(10 : ℚ) - 51/5| > 3/20 := by
      have hval : (10 : ℚ) - 51/5 = -(1/5) := by norm_num
      rw [hval, abs_neg, abs_of_nonneg (by norm_num : (0:ℚ) ≤ 1/5)]
      norm_num
    unfold fusionCycle
    rw [if_pos habs]
  · have habs : ¬(|(10 : ℚ) - 101/10| > 3/20) := by
      have hval : (10 : ℚ) - 101/10 = -(1/10) := by norm_num
      rw [hval, abs_neg, abs_of_nonneg (by norm_num : (0:ℚ) ≤ 1/10)]
      norm_num
    unfold fusionCycle
    rw [if_neg habs]
    rfl

/-- C1: on equal-shaped cropped inputs, fuse_images keeps img1's shape,
and each pixel equals img1's pixel where the mask is 0 and img2's pixel
at the same coordinate where the mask is nonzero. -/
theorem fuse_images_spec (img1 img2 mask1 : Img) (h w : Nat)
    (h1 : Rect h w img1) (h2 : Rect h w img2) (hm : Rect h w mask1) :
    Rect h w (fuse_images img1 img2 mask1)
    ∧ ∀ i j, i < h → j < w →
        px (fuse_images img1 img2 mask1) i j =
          if px mask1 i j = 0 then px img1 i j else px img2 i j := by
  refine ⟨rect_maskedAssign h1 img2 mask1, ?_⟩
  intro i j hi hj
  rw [show fuse_images img1 img2 mask1 = maskedAssign img1 img2 mask1 from rfl,
    px_maskedAssign h1 h2 hm i j hi]
  rcases Nat.eq_zero_or_pos (px mask1 i j) with h0 | hpos
  · simp [h0]
  · rw [if_pos hpos, if_neg (Nat.pos_iff_ne_zero.mp hpos)]

theorem fuse_images_spec_witness :
    Rect 2 2 (fuse_images [[1,2],[3,4]] [[9,8],[7,6]] [[0,255],[5,0]])
    ∧ ∀ i j, i < 2 → j < 2 →
        px (fuse_images [[1,2],[3,4]] [[9,8],[7,6]] [[0,255],[5,0]]) i j =
          if px [[0,255],[5,0]] i j = 0 then px [[1,2],[3,4]] i j
          else px [[9,8],[7,6]] i j :=
  fuse_images_spec [[1,2],[3,4]] [[9,8],[7,6]] [[0,255],[5,0]] 2 2
    (by decide) (by decide) (by decide)

/-- C5: compute_mask keeps the input's dimensions, and an in-range pixel
of the mask is set (nonzero) exactly when the corresponding 8-bit image
intensity is at least the saturation threshold, with the boundary value
included. -/
theorem compute_mask_spec (threshold : Nat) (image : Img) (h w : Nat)
    (hr : Rect h w image) (h8 : ∀ r ∈ image, ∀ p ∈ r, p ≤ 255) :
    Rect h w (compute_mask threshold image)
    ∧ ∀ i j, i < h → j < w →
        (px (compute_mask threshold image) i j ≠ 0 ↔
          threshold ≤ px image i j) := by
  constructor
  · constructor
    · simpa [compute_mask, inRange] using hr.1
    · intro r hrm
      obtain ⟨s, hs, rfl⟩ := List.mem_map.1 hrm
      simpa using hr.2 s hs
  · intro i j hi hj
    have hrow : (nth [] image i).length = w := rect_row_length hr hi
    have hpx : px (compute_mask threshold image) i j =
        if threshold ≤ px image i j ∧ px image i j ≤ 255 then 255 else 0 := by
      unfold compute_mask inRange px
      rw [nth_map_default _ (by simp),
        nth_map_lt 0 0 _ _ j (by rw [hrow]; exact hj)]
    have hle : px image i j ≤ 255 := by
      have hrmem : nth [] image i ∈ image :=
        nth_mem [] image i (by rw [hr.1]; exact hi)
      have hmem : nth 0 (nth [] image i) j ∈ nth [] image i :=
        nth_mem 0 _ j (by rw [hrow]; exact hj)
      exact h8 _ hrmem _ hmem
    rw [hpx]
    by_cases hth : threshold ≤ px image i j
    · simp [hth, hle]
    · simp [hth]

theorem compute_mask_spec_witness :
    Rect 2 2 (compute_mask 250 [[249,250],[255,0]])
    ∧ ∀ i j, i < 2 → j < 2 →
        (px (compute_mask 250 [[249,250],[255,0]]) i j ≠ 0 ↔
          250 ≤ px [[249,250],[255,0]] i j) :=
  compute_mask_spec 250 [[249,250],[255,0]] 2 2 (by decide) (by decide)

/-- C7: pad_to_full_width on an h×w image yields an h×(w+2x) image;
column x+j of the result equals column j of the input; the x border
columns on each side are the fill value 128; and slicing the result at
`[x : x + w]` recovers the input exactly. -/
theorem pad_to_full_width_spec (x : Nat) (img : Img) (h w : Nat)
    (hr : Rect h w img) :
    Rect h (w + 2 * x) (pad_to_full_width x img)
    ∧ (∀ i j, i < h → j < w →
        px (pad_to_full_width x img) i (x + j) = px img i j)
    ∧ (∀ i j, i < h → (j < x ∨ (x + w ≤ j ∧ j < x + w + x)) →
        px (pad_to_full_width x img) i j = 128)
    ∧ (pad_to_full_width x img).map (fun r => (r.drop x).take w) = img := by
  refine ⟨rect_pad x hr, ?_, ?_, ?_⟩
  · intro i j hi hj
    have hrow : (nth [] img i).length = w := rect_row_length hr hi
    unfold pad_to_full_width px
    rw [nth_map_lt [] [] _ img i (by rw [hr.1]; exact hi)]
    show nth 0 (List.replicate x 128 ++ nth [] img i ++ List.replicate x 128) (x + j) = _
    rw [List.append_assoc,
      nth_append_ge 0 _ _ (x + j) (by simp),
      show x + j - (List.replicate x (128:Nat)).length = j by simp,
      nth_append_lt 0 _ _ j (by rw [hrow]; exact hj)]
  · intro i j hi hj
    have hrow : (nth [] img i).length = w := rect_row_length hr hi
    unfold pad_to_full_width px
    rw [nth_map_lt [] [] _ img i (by rw [hr.1]; exact hi)]
    show nth 0 (List.replicate x 128 ++ nth [] img i ++ List.replicate x 128) j = 128
    rcases hj with hl | ⟨hg1, hg2⟩
    · rw [List.append_assoc, nth_append_lt 0 _ _ j (by simpa using hl)]
      exact nth_replicate_lt 0 128 x j hl
    · rw [List.append_assoc,
        nth_append_ge 0 _ _ j (by simp; omega),
        nth_append_ge 0 _ _ _ (by rw [hrow]; simp; omega)]
      refine nth_replicate_lt 0 128 x _ ?_
      rw [hrow]
      simp
      omega
  · rw [pad_to_full_width, List.map_map]
    have hcg : ∀ r ∈ img,
        ((fun r => (r.drop x).take w) ∘
          (fun r => List.replicate x (128:Nat) ++ r ++ List.replicate x 128)) r = r := by
      intro r hrm
      have hlen : r.length = w := hr.2 r hrm
      show ((List.replicate x (128:Nat) ++ r ++ List.replicate x 128).drop x).take w = r
      rw [List.append_assoc,
        show x = (List.replicate x (128:Nat)).length by simp,
        drop_replicate_append _ _ _,
        show (List.replicate ((List.replicate x (128:Nat)).length) (128:Nat)) = List.replicate x 128 by simp]
      rw [← hlen, take_append_self]
    rw [List.map_congr_left hcg]
    simp

theorem pad_to_full_width_spec_witness :
    Rect 2 (1 + 2 * 1) (pad_to_full_width 1 [[5],[6]])
    ∧ (∀ i j, i < 2 → j < 1 →
        px (pad_to_full_width 1 [[5],[6]]) i (1 + j) = px [[5],[6]] i j)
    ∧ (∀ i j, i < 2 → (j < 1 ∨ (1 + 1 ≤ j ∧ j < 1 + 1 + 1)) →
        px (pad_to_full_width 1 [[5],[6]]) i j = 128)
    ∧ (pad_to_full_width 1 [[5],[6]]).map (fun r => (r.drop 1).take 1) = [[5],[6]] :=
  pad_to_full_width_spec 1 [[5],[6]] 2 1 (by decide)

/-- C2: crop_and_shift removes x columns from cam1's left edge and x
from cam2's right edge; y > 0 removes y rows from cam1's top and cam2's
bottom, y < 0 removes |y| rows from cam1's bottom and cam2's top, y = 0
removes no rows; on equal-shaped h×w inputs both outputs are
(h−|y|)×(w−x), hence always of equal dimensions; and with x = 0 and
y = 0 both outputs equal their inputs. -/
theorem crop_and_shift_spec (x : Nat) (y : Int) (img1 img2 : Img) (h w : Nat)
    (h1 : Rect h w img1) (h2 : Rect h w img2) :
    Rect (h - y.natAbs) (w - x) (crop_and_shift x y img1 img2).1
    ∧ Rect (h - y.natAbs) (w - x) (crop_and_shift x y img1 img2).2
    ∧ (0 < y → ∀ i j, i < h - y.natAbs → j < w - x →
        px (crop_and_shift x y img1 img2).1 i j = px img1 (i + y.toNat) (j + x)
        ∧ px (crop_and_shift x y img1 img2).2 i j = px img2 i j)
    ∧ (y < 0 → ∀ i j, i < h - y.natAbs → j < w - x →
        px (crop_and_shift x y img1 img2).1 i j = px img1 i (j + x)
        ∧ px (crop_and_shift x y img1 img2).2 i j = px img2 (i + y.natAbs) j)
    ∧ (y = 0 → ∀ i j, i < h → j < w - x →
        px (crop_and_shift x y img1 img2).1 i j = px img1 i (j + x)
        ∧ px (crop_and_shift x y img1 img2).2 i j = px img2 i j)
    ∧ (x = 0 → y = 0 → (crop_and_shift x y img1 img2).1 = img1
        ∧ (crop_and_shift x y img1 img2).2 = img2) := by
  have hA : (img1.map (fun r => r.drop x)).length = h := by simp [h1.1]
  have hB : (img2.map (fun r => r.take (r.length - x))).length = h := by simp [h2.1]
  have hpos : 0 < y → crop_and_shift x y img1 img2 =
      ((img1.map (fun r => r.drop x)).drop y.toNat,
       (img2.map (fun r => r.take (r.length - x))).take
         ((img2.map (fun r => r.take (r.length - x))).length - y.toNat)) := by
    intro hy; unfold crop_and_shift; rw [if_pos hy]
  have hneg : y < 0 → crop_and_shift x y img1 img2 =
      ((img1.map (fun r => r.drop x)).take
         ((img1.map (fun r => r.drop x)).length - y.natAbs),
       (img2.map (fun r => r.take (r.length - x))).drop y.natAbs) := by
    intro hy; unfold crop_and_shift
    rw [if_neg (by omega), if_pos hy]
  have hzero : y = 0 → crop_and_shift x y img1 img2 =
      (img1.map (fun r => r.drop x),
       img2.map (fun r => r.take (r.length - x))) := by
    intro hy; unfold crop_and_shift
    rw [if_neg (by omega), if_neg (by omega)]
  refine ⟨rect_crop_fst x y img2 h1, rect_crop_snd x y img1 h2, ?_, ?_, ?_, ?_⟩
  · intro hy i j hi hj
    have hyn : y.natAbs = y.toNat := by omega
    rw [hpos hy]
    constructor
    · rw [px_dropRows, px_dropCols, Nat.add_comm y.toNat i, Nat.add_comm x j]
    · have hih : i < h := lt_of_lt_of_le hi (Nat.sub_le h _)
      rw [px_takeRows _ _ _ _ (by rw [hB]; omega),
        px_takeCols _ _ _ _ (by rw [rect_row_length h2 hih]; exact hj)]
  · intro hy i j hi hj
    have hih : i < h := lt_of_lt_of_le hi (Nat.sub_le h _)
    rw [hneg hy]
    constructor
    · rw [px_takeRows _ _ _ _ (by rw [hA]; omega),
        px_dropCols, Nat.add_comm x j]
    · have hih2 : y.natAbs + i < h := by omega
      rw [px_dropRows,
        px_takeCols _ _ _ _ (by rw [rect_row_length h2 hih2]; exact hj),
        Nat.add_comm y.natAbs i]
  · intro hy i j hi hj
    rw [hzero hy]
    constructor
    · rw [px_dropCols, Nat.add_comm x j]
    · rw [px_takeCols _ _ _ _ (by rw [rect_row_length h2 hi]; exact hj)]
  · intro hx hy
    subst hx; subst hy
    rw [hzero rfl]
    constructor <;> simp

theorem crop_and_shift_spec_witness :
    Rect (3 - (1:Int).natAbs) (3 - 1)
      (crop_and_shift 1 1 [[1,2,3],[4,5,6],[7,8,9]] [[11,12,13],[14,15,16],[17,18,19]]).1
    ∧ Rect (3 - (1:Int).natAbs) (3 - 1)
      (crop_and_shift 1 1 [[1,2,3],[4,5,6],[7,8,9]] [[11,12,13],[14,15,16],[17,18,19]]).2
    ∧ (0 < (1:Int) → ∀ i j, i < 3 - (1:Int).natAbs → j < 3 - 1 →
        px (crop_and_shift 1 1 [[1,2,3],[4,5,6],[7,8,9]] [[11,12,13],[14,15,16],[17,18,19]]).1 i j
          = px [[1,2,3],[4,5,6],[7,8,9]] (i + (1:Int).toNat) (j + 1)
        ∧ px (crop_and_shift 1 1 [[1,2,3],[4,5,6],[7,8,9]] [[11,12,13],[14,15,16],[17,18,19]]).2 i j
          = px [[11,12,13],[14,15,16],[17,18,19]] i j)
    ∧ ((1:Int) < 0 → ∀ i j, i < 3 - (1:Int).natAbs → j < 3 - 1 →
        px (crop_and_shift 1 1 [[1,2,3],[4,5,6],[7,8,9]] [[11,12,13],[14,15,16],[17,18,19]]).1 i j
          = px [[1,2,3],[4,5,6],[7,8,9]] i (j + 1)
        ∧ px (crop_and_shift 1 1 [[1,2,3],[4,5,6],[7,8,9]] [[11,12,13],[14,15,16],[17,18,19]]).2 i j
          = px [[11,12,13],[14,15,16],[17,18,19]] (i + (1:Int).natAbs) j)
    ∧ ((1:Int) = 0 → ∀ i j, i < 3 → j < 3 - 1 →
        px (crop_and_shift 1 1 [[1,2,3],[4,5,6],[7,8,9]] [[11,12,13],[14,15,16],[17,18,19]]).1 i j
          = px [[1,2,3],[4,5,6],[7,8,9]] i (j + 1)
        ∧ px (crop_and_shift 1 1 [[1,2,3],[4,5,6],[7,8,9]] [[11,12,13],[14,15,16],[17,18,19]]).2 i j
          = px [[11,12,13],[14,15,16],[17,18,19]] i j)
    ∧ (1 = 0 → (1:Int) = 0 →
        (crop_and_shift 1 1 [[1,2,3],[4,5,6],[7,8,9]] [[11,12,13],[14,15,16],[17,18,19]]).1
          = [[1,2,3],[4,5,6],[7,8,9]]
        ∧ (crop_and_shift 1 1 [[1,2,3],[4,5,6],[7,8,9]] [[11,12,13],[14,15,16],[17,18,19]]).2
          = [[11,12,13],[14,15,16],[17,18,19]]) :=
  crop_and_shift_spec 1 1 [[1,2,3],[4,5,6],[7,8,9]] [[11,12,13],[14,15,16],[17,18,19]]
    3 3 (by decide) (by decide)

/-- C3 counterexample: two 2×2 input frames (W = 2) with horizontal trim
x = 1 > 0 produce a padded fused output of width 3 = W + x, not W: the
crop removes x columns from each frame (width W − x) and the padding
adds x on both sides.  All-zero masks and an identity enhancement make
the cycle a pure crop-fuse-pad. -/
theorem fusion_pipeline_width_counterexample :
    Rect 2 2 ([[5,5],[5,5]] : Img)
    ∧ ¬ Rect 2 2 (fusionPipelineFused id id 1 0 [[5,5],[5,5]] [[5,5],[5,5]]
        [[0,0],[0,0]] [[0,0],[0,0]])
    ∧ (nth [] (fusionPipelineFused id id 1 0 [[5,5],[5,5]] [[5,5],[5,5]]
        [[0,0],[0,0]] [[0,0],[0,0]]) 0).length = 3 := by
  refine ⟨by decide, by decide, rfl⟩

/-- C3 amended: for h×w input frames and horizontal trim x ≤ w, the
padded fused output of a fusion cycle is (h−|y|)×(w+x): the cropped
width w − x plus 2x of padding.  The canvas width is therefore fixed by
w and x alone, but equals w + x rather than the original width w. -/
theorem fusion_pipeline_padded_width (e1 e2 : Img → Img) (x : Nat) (y : Int)
    (img1 img2 mask1 mask2 : Img) (h w : Nat)
    (h1 : Rect h w img1) (_h2 : Rect h w img2) (hx : x ≤ w) :
    Rect (h - y.natAbs) (w + x)
      (fusionPipelineFused e1 e2 x y img1 img2 mask1 mask2) := by
  have hc1 : Rect (h - y.natAbs) (w - x) (crop_and_shift x y img1 img2).1 :=
    rect_crop_fst x y img2 h1
  have hgoal : Rect (h - y.natAbs) ((w - x) + 2 * x)
      (fusionPipelineFused e1 e2 x y img1 img2 mask1 mask2) := by
    simp only [fusionPipelineFused, fuse_images]
    exact rect_pad x (rect_maskedAssign (rect_applyClaheGray hc1 _ _) _ _)
  have hww : (w - x) + 2 * x = w + x := by omega
  rw [hww] at hgoal
  exact hgoal

theorem fusion_pipeline_padded_width_witness :
    Rect (2 - (0:Int).natAbs) (2 + 1)
      (fusionPipelineFused id id 1 0 [[5,5],[5,5]] [[5,5],[5,5]]
        [[0,0],[0,0]] [[0,0],[0,0]]) :=
  fusion_pipeline_padded_width id id 1 0 [[5,5],[5,5]] [[5,5],[5,5]]
    [[0,0],[0,0]] [[0,0],[0,0]] 2 2 (by decide) (by decide) (by decide)

/-- C6: the source computes cam1's enhancement-region mask as
`np.ones_like(img1) - mask1` in uint8 arithmetic (fusion_worker.py line
137).  With the 0/255 masks produced by compute_mask, `1 - 255` wraps
around to 2, so the enhancement mask is nonzero at saturated pixels too
(value 2, versus 1 on the complement) and cam1's image is
CLAHE-modified there, contradicting the claim that cam1 is modified
only where its cropped mask is 0.  Concretely: cropped cam1 image
[[100, 200]] with cropped mask [[0, 255]] gives enhancement mask
[[1, 2]], and under a value-changing enhancement the saturated pixel at
(0, 1) changes from 200 to 201. -/
theorem clahe_cam1_mask_underflow :
    px ([[0,255]] : Img) 0 1 ≠ 0
    ∧ px (u8subImg (ones_like [[100,200]]) [[0,255]]) 0 1 = 2
    ∧ px (applyClaheGray (fun g => g.map (List.map (fun p => p + 1)))
          [[100,200]] (u8subImg (ones_like [[100,200]]) [[0,255]])) 0 1 = 201
    ∧ px ([[100,200]] : Img) 0 1 = 200 := by
  refine ⟨by decide, by decide, by decide, by decide⟩

/-- C9 counterexample: a 3-D buffer with 2 channels (neither single- nor
3-channel) together with an all-zero mask is returned unchanged as
`Except.ok` — the empty-mask early return precedes the shape check — so
the claim that every such buffer signals an explicit error is false. -/
theorem apply_clahe_empty_mask_counterexample :
    channels [[[1,2]]] = 2
    ∧ apply_clahe_masked_region id id (fun a _ => a) (Buf.c3 [[[1,2]]]) [[0]] =
        Except.ok (Buf.c3 [[[1,2]]])
    ∧ ∀ msg : String,
        apply_clahe_masked_region id id (fun a _ => a) (Buf.c3 [[[1,2]]]) [[0]] ≠
          Except.error msg := by
  refine ⟨rfl, rfl, ?_⟩
  intro msg hmsg
  rw [show apply_clahe_masked_region id id (fun a _ => a) (Buf.c3 [[[1,2]]]) [[0]] =
      Except.ok (Buf.c3 [[[1,2]]]) from rfl] at hmsg
  exact Except.noConfusion hmsg

theorem mem_subImage_row {α : Type} {g : Grid α} {y0 y1 x0 x1 : Nat}
    {r : List α} (hr : r ∈ subImage g y0 y1 x0 x1) :
    ∃ s ∈ g, r = (s.drop x0).take (x1 + 1 - x0) := by
  obtain ⟨s, hs, rfl⟩ := List.mem_map.1 hr
  exact ⟨s, List.drop_subset _ _ (List.take_subset _ _ hs), rfl⟩

theorem channels_subImage {g : Img3} (y0 y1 x0 x1 : Nat) {c : Nat}
    (hc : ∀ r ∈ g, ∀ cell ∈ r, cell.length = c) :
    channels (subImage g y0 y1 x0 x1) = 0
    ∨ channels (subImage g y0 y1 x0 x1) = c := by
  rcases hsub : subImage g y0 y1 x0 x1 with _ | ⟨r, rest⟩
  · left; rfl
  · rcases hrw : r with _ | ⟨cell, cs⟩
    · subst hrw; left; rfl
    · subst hrw
      right
      have hrmem : (cell :: cs) ∈ subImage g y0 y1 x0 x1 := by
        rw [hsub]; exact List.mem_cons_self _ _
      obtain ⟨s, hs, hreq⟩ := mem_subImage_row hrmem
      have hcellmem : cell ∈ s := by
        have hcr : cell ∈ cell :: cs := List.mem_cons_self _ _
        rw [hreq] at hcr
        exact List.drop_subset _ _ (List.take_subset _ _ hcr)
      show cell.length = c
      exact hc s hs cell hcellmem

/-- C9 amended: apply_clahe_masked_region returns its input unchanged
whenever the mask has no nonzero pixel (for any buffer shape, since this
early return precedes the shape dispatch), and for every 3-D input
buffer whose channel count is neither 1 nor 3, whenever the mask has at
least one nonzero pixel, it signals the explicit error
"Unsupported image format for CLAHE" — an outcome distinct from the
empty-mask no-op, which is an `Except.ok`. -/
theorem apply_clahe_gate_spec (e : Img → Img) (eC : Img3 → Img3)
    (cB : Img3 → Img → Img3) (buf : Buf) (data : Img3) (mask : Img) (c : Nat) :
    (nonzeroCoords mask = [] →
      apply_clahe_masked_region e eC cB buf mask = Except.ok buf)
    ∧ (nonzeroCoords mask ≠ [] →
       (∀ r ∈ data, ∀ cell ∈ r, cell.length = c) → c ≠ 1 → c ≠ 3 →
       apply_clahe_masked_region e eC cB (Buf.c3 data) mask =
         Except.error "Unsupported image format for CLAHE") := by
  constructor
  · intro hm
    unfold apply_clahe_masked_region
    rw [hm]
    rfl
  · intro hm hc h1 h3
    have hne : (nonzeroCoords mask).isEmpty = false := by
      cases hq : nonzeroCoords mask with
      | nil => exact absurd hq hm
      | cons a l => rfl
    have hch := channels_subImage
      (listMin ((nonzeroCoords mask).map Prod.fst))
      (listMax ((nonzeroCoords mask).map Prod.fst))
      (listMin ((nonzeroCoords mask).map Prod.snd))
      (listMax ((nonzeroCoords mask).map Prod.snd)) hc
    unfold apply_clahe_masked_region
    simp only [hne, Bool.false_eq_true, if_false]
    rcases hch with h0 | hcc
    · rw [if_neg (by rw [h0]; omega), if_neg (by rw [h0]; omega)]
    · rw [if_neg (by rw [hcc]; exact h1), if_neg (by rw [hcc]; exact h3)]

theorem apply_clahe_gate_spec_witness :
    apply_clahe_masked_region id id (fun a _ => a) (Buf.g2 [[7]]) [[0]] =
        Except.ok (Buf.g2 [[7]])
    ∧ apply_clahe_masked_region id id (fun a _ => a) (Buf.c3 [[[1,2]]]) [[5]] =
        Except.error "Unsupported image format for CLAHE" :=
  ⟨(apply_clahe_gate_spec id id (fun a _ => a) (Buf.g2 [[7]]) [] [[0]] 0).1 rfl,
   (apply_clahe_gate_spec id id (fun a _ => a) (Buf.c3 [[[1,2]]]) [[[1,2]]]
      [[5]] 2).2 (by decide) (by decide) (by decide) (by decide)⟩

theorem maskedAssignRow_congr {α : Type} {mr mr1 : List Nat}
    (hm : List.Forall₂ (fun a b => (0 < a ↔ 0 < b)) mr mr1) :
    ∀ (r s : List α), maskedAssignRow r s mr = maskedAssignRow r s mr1 := by
  induction hm with
  | nil => intro r s; rfl
  | cons hab htl ih =>
    intro r s
    cases r with
    | nil => rfl
    | cons r0 rs =>
      cases s with
      | nil => rfl
      | cons s0 ss =>
        show (if 0 < _ then s0 else r0) :: maskedAssignRow rs ss _
          = (if 0 < _ then s0 else r0) :: maskedAssignRow rs ss _
        rw [ih rs ss, if_congr hab rfl rfl]

theorem maskedAssign_congr {α : Type} {m m1 : Grid Nat} (hm : SupportIff m m1) :
    ∀ (g b : Grid α), maskedAssign g b m = maskedAssign g b m1 := by
  induction hm with
  | nil => intro g b; rfl
  | cons hrow htl ih =>
    intro g b
    cases g with
    | nil => rfl
    | cons g0 gs =>
      cases b with
      | nil => rfl
      | cons b0 bs =>
        show maskedAssignRow g0 b0 _ :: maskedAssign gs bs _
          = maskedAssignRow g0 b0 _ :: maskedAssign gs bs _
        rw [ih gs bs, maskedAssignRow_congr hrow g0 b0]

theorem rowNonzero_congr {r r1 : List Nat}
    (h : List.Forall₂ (fun a b => (0 < a ↔ 0 < b)) r r1) :
    rowNonzero r = rowNonzero r1 := by
  induction h with
  | nil => rfl
  | cons hab htl ih =>
    unfold rowNonzero
    rw [ih, if_congr hab rfl rfl]

theorem nonzeroCoords_congr {m m1 : Grid Nat} (hm : SupportIff m m1) :
    nonzeroCoords m = nonzeroCoords m1 := by
  induction hm with
  | nil => rfl
  | cons hrow htl ih =>
    unfold nonzeroCoords
    rw [ih, rowNonzero_congr hrow]

theorem forall₂_map_both {α β : Type} {R : α → α → Prop} {S : β → β → Prop}
    (f : α → β) (hf : ∀ a b, R a b → S (f a) (f b)) :
    ∀ {l1 l2 : List α}, List.Forall₂ R l1 l2 →
      List.Forall₂ S (l1.map f) (l2.map f) := by
  intro l1 l2 h
  induction h with
  | nil => exact List.Forall₂.nil
  | cons hab htl ih => exact List.Forall₂.cons (hf _ _ hab) ih

theorem supportIff_subImage {m m1 : Grid Nat} (hm : SupportIff m m1)
    (y0 y1 x0 x1 : Nat) :
    SupportIff (subImage m y0 y1 x0 x1) (subImage m1 y0 y1 x0 x1) := by
  unfold subImage SupportIff
  exact forall₂_map_both _
    (fun a b hab => List.forall₂_take _ (List.forall₂_drop _ hab))
    (List.forall₂_take _ (List.forall₂_drop _ hm))

theorem applyClaheGray_congr (e : Img → Img) (base : Img) {m m1 : Img}
    (hm : SupportIff m m1) :
    applyClaheGray e base m = applyClaheGray e base m1 := by
  have hcoords : nonzeroCoords m = nonzeroCoords m1 := nonzeroCoords_congr hm
  simp only [applyClaheGray]
  rw [hcoords]
  by_cases hq : (nonzeroCoords m1).isEmpty
  · rw [if_pos hq, if_pos hq]
  · rw [if_neg hq, if_neg hq]
    congr 1
    exact maskedAssign_congr (supportIff_subImage hm _ _ _ _) _ _

theorem compute_mask_binary (threshold : Nat) (image : Img) (i j : Nat) :
    px (compute_mask threshold image) i j = 0
    ∨ px (compute_mask threshold image) i j = 255 := by
  unfold compute_mask inRange px
  rw [nth_map_default _ (by simp)]
  by_cases hj : j < (nth [] image i).length
  · rw [nth_map_lt 0 0 _ _ j hj]
    by_cases hc : threshold ≤ nth 0 (nth [] image i) j
        ∧ nth 0 (nth [] image i) j ≤ 255
    · right; simp [hc]
    · left; simp [hc]
  · left
    rw [nth_ge 0 _ j (by simpa using not_lt.mp hj)]

/-- C10: compute_mask produces only the two values 0 and 255, an 8-bit
saturated pixel (intensity ≥ threshold) is marked with value 255 rather
than 1, and the mask consumers — pixel fusion and the
contrast-enhancement region selection — depend on the mask only through
which pixels are nonzero: replacing the mask by any support-equivalent
mask leaves both results unchanged. -/
theorem mask_binary_support_spec (threshold : Nat) (image img1 img2 base : Img)
    (e : Img → Img) (m m1 : Img) (hsupp : SupportIff m m1) :
    (∀ i j, px (compute_mask threshold image) i j = 0
        ∨ px (compute_mask threshold image) i j = 255)
    ∧ (∀ i j, i < image.length → j < (nth [] image i).length →
        threshold ≤ px image i j → px image i j ≤ 255 →
        px (compute_mask threshold image) i j = 255)
    ∧ fuse_images img1 img2 m = fuse_images img1 img2 m1
    ∧ applyClaheGray e base m = applyClaheGray e base m1 := by
  refine ⟨fun i j => compute_mask_binary threshold image i j, ?_, ?_, ?_⟩
  · intro i j hi hj hth hle
    unfold px at hth hle
    unfold compute_mask inRange px
    rw [nth_map_default _ (by simp), nth_map_lt 0 0 _ _ j hj,
      if_pos (And.intro hth hle)]
  · exact maskedAssign_congr hsupp img1 img2
  · exact applyClaheGray_congr e base hsupp

theorem mask_binary_support_spec_witness :
    (∀ i j, px (compute_mask 250 [[249,255],[0,250]]) i j = 0
        ∨ px (compute_mask 250 [[249,255],[0,250]]) i j = 255)
    ∧ (∀ i j, i < ([[249,255],[0,250]] : Img).length →
        j < (nth [] ([[249,255],[0,250]] : Img) i).length →
        250 ≤ px [[249,255],[0,250]] i j → px [[249,255],[0,250]] i j ≤ 255 →
        px (compute_mask 250 [[249,255],[0,250]]) i j = 255)
    ∧ fuse_images [[1,2],[3,4]] [[9,8],[7,6]] [[0,255],[5,0]]
        = fuse_images [[1,2],[3,4]] [[9,8],[7,6]] [[0,1],[255,0]]
    ∧ applyClaheGray id [[1,2],[3,4]] [[0,255],[5,0]]
        = applyClaheGray id [[1,2],[3,4]] [[0,1],[255,0]] :=
  mask_binary_support_spec 250 [[249,255],[0,250]] [[1,2],[3,4]] [[9,8],[7,6]]
    [[1,2],[3,4]] id [[0,255],[5,0]] [[0,1],[255,0]]
    (List.Forall₂.cons
      (List.Forall₂.cons (by omega) (List.Forall₂.cons (by omega) List.Forall₂.nil))
      (List.Forall₂.cons
        (List.Forall₂.cons (by omega) (List.Forall₂.cons (by omega) List.Forall₂.nil))
        List.Forall₂.nil))
